import Mathlib

/-!
Shallow embedding of src/sync.py (aw-garmin): an incremental synchronization
engine that pulls sleep and activity records from an upstream fitness source
and inserts them into a downstream event store, deduplicating across runs via
a persisted per-stream watermark.

Modelling conventions:
* Python `datetime` values are modelled by the `DateTime` structure below.
  Python's constructor enforces field validity (MINYEAR = 1, MAXYEAR = 9999,
  in-range month/day/hour/minute/second/microsecond), so the validity facts
  are carried as proof fields: every `DateTime` in scope corresponds to a
  constructible Python datetime.  Python compares datetimes field-
  lexicographically; on in-range fields that order coincides with the
  mixed-radix `DateTime.key` order used here.
* Fallible Python code (strptime, enum lookup, datetime range overflow)
  is modelled with `Option`/`Except`.
* JSON values produced by json.loads / consumed by json.dumps are modelled
  by the `Json` inductive.
-/

/-- JSON-like values: the results of json.loads and inputs of json.dumps,
and the scalar values appearing in event data payloads. -/
inductive Json where
  | null
  | str (s : String)
  | num (n : Int)
  | bool (b : Bool)
  | obj (kvs : List (String × Json))

/-- Gregorian leap-year test (calendar.isleap / datetime internals). -/
def isLeap (y : Nat) : Bool :=
  y % 4 == 0 && (y % 100 != 0 || y % 400 == 0)

/-- Days in a month of a given year (datetime's _days_in_month).
Months outside 1..12 never occur in a valid datetime; they map to 0 so that
the `DateTime` day constraint below is unsatisfiable for them. -/
def daysInMonth (y m : Nat) : Nat :=
  match m with
  | 1 => 31
  | 2 => if isLeap y then 29 else 28
  | 3 => 31
  | 4 => 30
  | 5 => 31
  | 6 => 30
  | 7 => 31
  | 8 => 31
  | 9 => 30
  | 10 => 31
  | 11 => 30
  | 12 => 31
  | _ => 0

/-- Python `datetime.datetime`: field record plus the validity invariants the
Python constructor enforces (ValueError outside these ranges). -/
structure DateTime where
  year : Nat
  month : Nat
  day : Nat
  hour : Nat
  minute : Nat
  second : Nat
  micro : Nat
  year_pos : 1 ≤ year
  year_le : year ≤ 9999
  month_pos : 1 ≤ month
  month_le : month ≤ 12
  day_pos : 1 ≤ day
  day_le : day ≤ daysInMonth year month
  hour_le : hour ≤ 23
  minute_le : minute ≤ 59
  second_le : second ≤ 59
  micro_le : micro ≤ 999999

theorem DateTime.ext_fields : ∀ {a b : DateTime},
    a.year = b.year → a.month = b.month → a.day = b.day → a.hour = b.hour →
    a.minute = b.minute → a.second = b.second → a.micro = b.micro → a = b := by
  rintro ⟨y1, mo1, d1, h1, mi1, s1, u1, _, _, _, _, _, _, _, _, _, _⟩
    ⟨y2, mo2, d2, h2, mi2, s2, u2, _, _, _, _, _, _, _, _, _, _⟩
  intro hy hmo hd hh hmi hs hu
  simp only at hy hmo hd hh hmi hs hu
  subst hy; subst hmo; subst hd; subst hh; subst hmi; subst hs; subst hu
  rfl

/-- Mixed-radix linearization of a datetime.  On valid fields (which every
`DateTime` has) its order agrees with Python's field-lexicographic datetime
comparison, and it is injective. -/
def DateTime.key (t : DateTime) : Nat :=
  t.micro + 1000000 * (t.second + 60 * (t.minute + 60 * (t.hour + 24 * (t.day + 32 * (t.month + 13 * t.year)))))

theorem DateTime.key_inj {a b : DateTime} (h : a.key = b.key) : a = b := by
  have ha1 := a.month_le; have ha2 := a.day_le; have ha3 := a.hour_le
  have ha4 := a.minute_le; have ha5 := a.second_le; have ha6 := a.micro_le
  have hb1 := b.month_le; have hb2 := b.day_le; have hb3 := b.hour_le
  have hb4 := b.minute_le; have hb5 := b.second_le; have hb6 := b.micro_le
  have ha7 : a.day ≤ 31 := le_trans a.day_le (by
    unfold daysInMonth
    rcases a with ⟨_, mo, _, _, _, _, _, _, _, _, _, _, _, _, _, _, _⟩
    interval_cases mo <;> simp <;> split <;> omega)
  have hb7 : b.day ≤ 31 := le_trans b.day_le (by
    unfold daysInMonth
    rcases b with ⟨_, mo, _, _, _, _, _, _, _, _, _, _, _, _, _, _, _⟩
    interval_cases mo <;> simp <;> split <;> omega)
  unfold DateTime.key at h
  apply DateTime.ext_fields <;> omega

instance : LE DateTime := ⟨fun a b => a.key ≤ b.key⟩
instance : LT DateTime := ⟨fun a b => a.key < b.key⟩

theorem DateTime.le_def {a b : DateTime} : a ≤ b ↔ a.key ≤ b.key := Iff.rfl
theorem DateTime.lt_def {a b : DateTime} : a < b ↔ a.key < b.key := Iff.rfl

instance : DecidableEq DateTime := fun a b =>
  decidable_of_iff (a.key = b.key) ⟨DateTime.key_inj, fun h => h ▸ rfl⟩

instance (a b : DateTime) : Decidable (a ≤ b) :=
  inferInstanceAs (Decidable (a.key ≤ b.key))

instance (a b : DateTime) : Decidable (a < b) :=
  inferInstanceAs (Decidable (a.key < b.key))

theorem DateTime.not_le {a b : DateTime} : ¬ a ≤ b ↔ b < a := Nat.not_le

theorem DateTime.le_trans {a b c : DateTime} (h1 : a ≤ b) (h2 : b ≤ c) : a ≤ c :=
  Nat.le_trans h1 h2

theorem DateTime.le_of_lt {a b : DateTime} (h : a < b) : a ≤ b := Nat.le_of_lt h

theorem DateTime.le_total (a b : DateTime) : a ≤ b ∨ b ≤ a := Nat.le_total _ _

theorem DateTime.ne_of_lt {a b : DateTime} (h : a < b) : a ≠ b := by
  intro he; subst he; exact Nat.lt_irrefl _ h

theorem DateTime.lt_of_le_of_ne {a b : DateTime} (h1 : a ≤ b) (h2 : a ≠ b) : a < b :=
  Nat.lt_of_le_of_ne h1 (fun hk => h2 (DateTime.key_inj hk))

theorem DateTime.lt_of_le_of_lt {a b c : DateTime} (h1 : a ≤ b) (h2 : b < c) : a < c :=
  Nat.lt_of_le_of_lt h1 h2

/-! ## Timestamp parsing and formatting

src/sync.py uses two fixed strptime/strftime formats:
* sleep/activity upstream stamps: "%Y-%m-%dT%H:%M:%S.0"  (SleepLevel.__init__,
  sync_workout_data), where ".0" is literal text, so the parsed microsecond
  is always 0;
* the persisted state format ISO_FMT = "%Y-%m-%dT%H:%M:%SZ" (_dt_to_iso /
  _iso_to_dt).

CPython strptime compiles the format to a regex: %Y is exactly four digits,
while %m, %d, %H, %M, %S each accept two digits or one (month/day reject a
lone 0); the whole string must be consumed; the matched numbers are then fed
to the datetime constructor, which raises ValueError out of range.  Since a
field is always followed by a non-digit literal in these formats, the greedy
two-digit alternative commits whenever two digits are present.  We fold the
constructor's range validation (including seconds 60/61, which the regex
admits but the constructor rejects) into `mkDT?`. -/

def digitB (c : Char) : Bool := 48 ≤ c.toNat && c.toNat ≤ 57

def dval (c : Char) : Nat := c.toNat - 48

def dChar (k : Nat) : Char := Char.ofNat (48 + k)

/-- The %Y field: exactly four digits. -/
def parse4 : List Char → Option (Nat × List Char)
  | a :: b :: c :: d :: rest =>
    if digitB a && digitB b && digitB c && digitB d then
      some (((dval a * 10 + dval b) * 10 + dval c) * 10 + dval d, rest)
    else none
  | _ => none

/-- A two-digit-or-one-digit numeric field: the two-digit alternative is taken
when two digits are present and the value lies in [lo2, hi2]; otherwise a
single digit in [lo1, hi1]. -/
def parse21 (lo2 hi2 lo1 hi1 : Nat) : List Char → Option (Nat × List Char)
  | [] => none
  | a :: rest =>
    if digitB a then
      match rest with
      | b :: rest2 =>
        if digitB b then
          let v := dval a * 10 + dval b
          if lo2 ≤ v && v ≤ hi2 then some (v, rest2) else none
        else
          let v := dval a
          if lo1 ≤ v && v ≤ hi1 then some (v, rest) else none
      | [] =>
        let v := dval a
        if lo1 ≤ v && v ≤ hi1 then some (v, []) else none
    else none

/-- A literal character of the format. -/
def lit (c : Char) : List Char → Option (List Char)
  | x :: rest => if x = c then some rest else none
  | [] => none

/-- A literal trailing string of the format. -/
def lits : List Char → List Char → Option (List Char)
  | [], input => some input
  | c :: cs, input =>
    match lit c input with
    | some rest => lits cs rest
    | none => none

/-- The datetime constructor: validates all field ranges (Python raises
ValueError outside them) and otherwise builds the value. -/
def mkDT? (y mo d h mi s us : Nat) : Option DateTime :=
  if hc : 1 ≤ y ∧ y ≤ 9999 ∧ 1 ≤ mo ∧ mo ≤ 12 ∧ 1 ≤ d ∧ d ≤ daysInMonth y mo ∧
      h ≤ 23 ∧ mi ≤ 59 ∧ s ≤ 59 ∧ us ≤ 999999 then
    some ⟨y, mo, d, h, mi, s, us, hc.1, hc.2.1, hc.2.2.1, hc.2.2.2.1, hc.2.2.2.2.1,
      hc.2.2.2.2.2.1, hc.2.2.2.2.2.2.1, hc.2.2.2.2.2.2.2.1, hc.2.2.2.2.2.2.2.2.1,
      hc.2.2.2.2.2.2.2.2.2⟩
  else none

/-- Generic strptime with format "%Y-%m-%dT%H:%M:%S" followed by the given literal
suffix; the input must be consumed entirely. Seconds 60/61 pass the regex but
fail the constructor check inside `mkDT?`, an observable-equivalent folding. -/
def parseStamp (suffix : List Char) (input : List Char) : Option DateTime :=
  match parse4 input with
  | none => none
  | some (y, r1) =>
    match lit '-' r1 with
    | none => none
    | some r2 =>
      match parse21 1 12 1 9 r2 with
      | none => none
      | some (mo, r3) =>
        match lit '-' r3 with
        | none => none
        | some r4 =>
          match parse21 1 31 1 9 r4 with
          | none => none
          | some (d, r5) =>
            match lit 'T' r5 with
            | none => none
            | some r6 =>
              match parse21 0 23 0 9 r6 with
              | none => none
              | some (h, r7) =>
                match lit ':' r7 with
                | none => none
                | some r8 =>
                  match parse21 0 59 0 9 r8 with
                  | none => none
                  | some (mi, r9) =>
                    match lit ':' r9 with
                    | none => none
                    | some r10 =>
                      match parse21 0 61 0 9 r10 with
                      | none => none
                      | some (s, r11) =>
                        match lits suffix r11 with
                        | some [] => mkDT? y mo d h mi s 0
                        | _ => none

/-- Parsing datetime.strptime(s, "%Y-%m-%dT%H:%M:%S.0") as used for
upstream records. -/
def parseSleepTs (s : String) : Option DateTime :=
  parseStamp ['.', '0'] s.toList

/-- The parser _iso_to_dt: datetime.strptime(s, ISO_FMT) with ISO_FMT = "%Y-%m-%dT%H:%M:%SZ". -/
def _iso_to_dt (s : String) : Option DateTime :=
  parseStamp ['Z'] s.toList

/-- Zero-padded two-digit rendering (strftime %m %d %H %M %S). -/
def pad2 (n : Nat) : List Char := [dChar (n / 10 % 10), dChar (n % 10)]

/-- Zero-padded four-digit rendering (strftime %Y; the zero-padded form
documented for Python, exact for the years 1000..9999 of interest). -/
def pad4 (n : Nat) : List Char :=
  [dChar (n / 1000 % 10), dChar (n / 100 % 10), dChar (n / 10 % 10), dChar (n % 10)]

/-- The serializer _dt_to_iso: dt.strftime(ISO_FMT); naive datetimes are treated as UTC. -/
def _dt_to_iso (t : DateTime) : String :=
  ⟨pad4 t.year ++ '-' :: (pad2 t.month ++ '-' :: (pad2 t.day ++ 'T' ::
    (pad2 t.hour ++ ':' :: (pad2 t.minute ++ ':' :: (pad2 t.second ++ ['Z'])))))⟩

/-- Rendering date.strftime("%Y-%m-%d") applied to a (year, month, day)
triple. -/
def fmtDate : Nat × Nat × Nat → String
  | (y, m, d) => ⟨pad4 y ++ '-' :: (pad2 m ++ '-' :: pad2 d)⟩

/-! ## Calendar arithmetic (datetime.toordinal / fromordinal / + timedelta)

Python's datetime arithmetic linearizes a datetime into (proleptic-Gregorian
ordinal, seconds of day), adds the delta, and converts back, raising
OverflowError when the result leaves years 1..9999.  `fromOrdinal` recovers
the calendar date by fueled year/month scans; `addSeconds` re-validates the
resulting fields through `mkDT?`, which models the year-range check. -/

def daysInYear (y : Nat) : Nat := if isLeap y then 366 else 365

/-- Days before January 1 of year y (datetime's _days_before_year). -/
def daysBeforeYear (y : Nat) : Nat :=
  let p := y - 1
  365 * p + p / 4 - p / 100 + p / 400

/-- Days in year y before the first of month m (datetime's _days_before_month). -/
def daysBeforeMonth (y m : Nat) : Nat :=
  (List.range (m - 1)).foldl (fun acc i => acc + daysInMonth y (i + 1)) 0

/-- Python date.toordinal(): day number of (y, m, d) with 0001-01-01
mapped to 1. -/
def toOrdinal (y mo d : Nat) : Nat :=
  daysBeforeYear y + daysBeforeMonth y mo + d

/-- CPython's fixed _DAYS_BEFORE_MONTH table (non-leap years). -/
def daysBeforeMonthTable (m : Nat) : Nat :=
  match m with
  | 1 => 0
  | 2 => 31
  | 3 => 59
  | 4 => 90
  | 5 => 120
  | 6 => 151
  | 7 => 181
  | 8 => 212
  | 9 => 243
  | 10 => 273
  | 11 => 304
  | 12 => 334
  | _ => 365

/-- CPython's fixed _DAYS_IN_MONTH table (non-leap years). -/
def daysInMonthTable (m : Nat) : Nat :=
  match m with
  | 1 => 31
  | 2 => 28
  | 3 => 31
  | 4 => 30
  | 5 => 31
  | 6 => 30
  | 7 => 31
  | 8 => 31
  | 9 => 30
  | 10 => 31
  | 11 => 30
  | 12 => 31
  | _ => 0

/-- Python date.fromordinal(): calendar date of an ordinal day number
(ordinal 1 is 0001-01-01), following CPython's _ord2ymd: decompose into 400-, 100-, 4- and
1-year cycles, special-case the last day of a cycle, then estimate and adjust
the month from the fixed tables. -/
def fromOrdinal (ord : Nat) : Nat × Nat × Nat :=
  let n := ord - 1
  let n400 := n / 146097
  let r400 := n % 146097
  let n100 := r400 / 36524
  let r100 := r400 % 36524
  let n4 := r100 / 1461
  let r4 := r100 % 1461
  let n1 := r4 / 365
  let r1 := r4 % 365
  let year := n400 * 400 + 1 + n100 * 100 + n4 * 4 + n1
  if n1 = 4 ∨ n100 = 4 then (year - 1, 12, 31)
  else
    let leap := n1 == 3 && (n4 != 24 || n100 == 3)
    let month := (r1 + 50) / 32
    let preceding := daysBeforeMonthTable month + (if 2 < month && leap then 1 else 0)
    if r1 < preceding then
      let month2 := month - 1
      let preceding2 := preceding - (daysInMonthTable month2 + (if month2 == 2 && leap then 1 else 0))
      (year, month2, r1 - preceding2 + 1)
    else
      (year, month, r1 - preceding + 1)

def secondsOfDay (t : DateTime) : Nat :=
  t.hour * 3600 + t.minute * 60 + t.second

/-- The linearization of datetime-plus-delta: total seconds from the epoch of
the proleptic-Gregorian ordinal scale. -/
def addTotal (t : DateTime) (delta : Int) : Int :=
  (toOrdinal t.year t.month t.day : Int) * 86400 + (secondsOfDay t : Int) + delta

/-- The ordinal of the day the shifted datetime falls on (floor division, as
timedelta normalization requires). -/
def addOrd (t : DateTime) (delta : Int) : Int := Int.ediv (addTotal t delta) 86400

/-- The second-of-day of the shifted datetime. -/
def addSod (t : DateTime) (delta : Int) : Nat := (Int.emod (addTotal t delta) 86400).toNat

/-- Python datetime + timedelta(seconds = delta): linearize, add, convert back;
`none` models OverflowError (result outside years 1..9999, re-checked through
the constructor model `mkDT?`).  The whole-second delta leaves the
microsecond field unchanged. -/
def addSeconds (t : DateTime) (delta : Int) : Option DateTime :=
  if addOrd t delta < 1 then none
  else
    mkDT? (fromOrdinal (addOrd t delta).toNat).1 (fromOrdinal (addOrd t delta).toNat).2.1
      (fromOrdinal (addOrd t delta).toNat).2.2
      (addSod t delta / 3600) (addSod t delta % 3600 / 60) (addSod t delta % 60) t.micro

/-- Python (a - b).total_seconds() — exact here because every datetime
reaching this computation in sync.py has microsecond 0, making the float
whole-valued. -/
def diffSeconds (a b : DateTime) : Int :=
  ((toOrdinal a.year a.month a.day : Int) * 86400 + (secondsOfDay a : Int))
    - ((toOrdinal b.year b.month b.day : Int) * 86400 + (secondsOfDay b : Int))

/-! ## Record normalization (SleepLevel, sync_workout_data's per-record code) -/

/-- Failure modes of the per-record pipeline: strptime ValueError,
SleepLevelType ValueError on an out-of-range code, OverflowError from
datetime arithmetic.  Any of them aborts the whole run in sync.py. -/
inductive SyncErr where
  | parseError
  | valueError
  | overflowError
deriving DecidableEq, Repr

/-- The enum lookup SleepLevelType(activityLevel).name — raises ValueError
outside 0..3. -/
def levelName : Int → Except SyncErr String
  | 0 => .ok "DEEP"
  | 1 => .ok "LIGHT"
  | 2 => .ok "REM"
  | 3 => .ok "AWAKE"
  | _ => .error .valueError

/-- A raw upstream sleep-stage segment: the keyword arguments accepted by
SleepLevel.__init__ (startGMT, endGMT, activityLevel). -/
structure RawSleepLevel where
  startGMT : String
  endGMT : String
  activityLevel : Int

/-- The uniform event model inserted downstream (aw_core Event: timestamp,
duration in seconds, data payload). -/
structure Event where
  timestamp : DateTime
  duration : Int
  data : List (String × Json)

/-- One iteration of the sync_sleep_data loop body up to the filter: parse the
SleepLevel (start, end, stage name), compute duration_seconds and
end_time = start + timedelta(seconds=duration_seconds), and build the Event.
Returns the event together with its computed end time. -/
def normalizeSleepLevel (r : RawSleepLevel) : Except SyncErr (Event × DateTime) :=
  match parseSleepTs r.startGMT with
  | none => .error .parseError
  | some startT =>
    match parseSleepTs r.endGMT with
    | none => .error .parseError
    | some endT =>
      match levelName r.activityLevel with
      | .error e => .error e
      | .ok lvl =>
        let durationSeconds := diffSeconds endT startT
        match addSeconds startT durationSeconds with
        | none => .error .overflowError
        | some endTime =>
          .ok (⟨startT, durationSeconds, [("title", Json.str ("Sleep: " ++ lvl))]⟩, endTime)

/-- A field of an upstream all-day activity record: absent key, key present
with JSON null (Python None), or a value of the declared type. -/
inductive JField (α : Type) where
  | absent
  | null
  | val (a : α)
deriving DecidableEq, Repr

/-- An upstream all-day event, with fields of the shapes the AllDayEvent
TypedDict declares (each possibly absent or null). -/
structure RawActivity where
  startTimestampGMT : JField String
  duration : JField Int
  activityType : JField String

/-- Python str(activity.get("startTimestampGMT", "1970-01-01T00:00:00.0")):
the default string when the key is absent, "None" (str(None)) when the key
holds null, the string itself otherwise. -/
def actStartStr (f : JField String) : String :=
  match f with
  | .absent => "1970-01-01T00:00:00.0"
  | .null => "None"
  | .val s => s

/-- Python int(activity.get("duration", 0) or 0): absent gives the default
0, null is falsy so `or 0` yields 0, and int(n or 0) = n for an int (also
at 0). -/
def actDurationMinutes (f : JField Int) : Int :=
  match f with
  | .val n => n
  | _ => 0

/-- Python str(activity.get("activityType", "activity")): note that
str(None) = "None" when the key holds null. -/
def actTypeStr (f : JField String) : String :=
  match f with
  | .absent => "activity"
  | .null => "None"
  | .val s => s

/-- The value activity.get("activityType", "unknown") stored in the data
payload. -/
def actTypeAttr (f : JField String) : Json :=
  match f with
  | .absent => Json.str "unknown"
  | .null => Json.null
  | .val s => Json.str s

def isAsciiAlpha (c : Char) : Bool :=
  (65 ≤ c.toNat && c.toNat ≤ 90) || (97 ≤ c.toNat && c.toNat ≤ 122)

def toUpperA (c : Char) : Char :=
  if 97 ≤ c.toNat && c.toNat ≤ 122 then Char.ofNat (c.toNat - 32) else c

def toLowerA (c : Char) : Char :=
  if 65 ≤ c.toNat && c.toNat ≤ 90 then Char.ofNat (c.toNat + 32) else c

def titleGo : List Char → Bool → List Char
  | [], _ => []
  | c :: rest, prevAlpha =>
    (if prevAlpha then toLowerA c else toUpperA c) :: titleGo rest (isAsciiAlpha c)

/-- Python str.title() (restricted to ASCII cased characters, which is
exact for the activity-type strings of interest). -/
def pyTitle (s : String) : String := ⟨titleGo s.toList false⟩

def jsonIsNull : Json → Bool
  | Json.null => true
  | _ => false

/-- One iteration of the sync_workout_data loop body up to the filter: parse
start (with epoch default), duration in minutes → seconds, end_time, build
the workout data payload dropping None values, and build the Event. -/
def normalizeActivity (a : RawActivity) : Except SyncErr (Event × DateTime) :=
  match parseSleepTs (actStartStr a.startTimestampGMT) with
  | none => .error .parseError
  | some startT =>
    let durationMinutes := actDurationMinutes a.duration
    let durationSeconds := durationMinutes * 60
    match addSeconds startT durationSeconds with
    | none => .error .overflowError
    | some endTime =>
      let actTitle := pyTitle (actTypeStr a.activityType)
      let wd := [("title", Json.str ("Activity: " ++ actTitle)),
                 ("type", actTypeAttr a.activityType),
                 ("duration_minutes", Json.num durationMinutes)]
      let wd := wd.filter (fun kv => !(jsonIsNull kv.2))
      .ok (⟨startT, durationSeconds, wd⟩, endTime)

/-! ## The per-stream sync loop (sync_sleep_data / sync_workout_data)

Both functions run the same loop: normalize the record, skip it when
`last_synced_utc is not None and end_time <= last_synced_utc`, otherwise
insert the event, bump the inserted count and the running maximum end time.
The loop is modelled once, parametrized by the normalizer; the accumulator is
(inserted events, inserted count, max end inserted). -/

/-- The filter decision: true when the event survives (is inserted). -/
def keepB (w : Option DateTime) (endTime : DateTime) : Bool :=
  match w with
  | none => true
  | some v => !(decide (endTime ≤ v))

/-- The running-maximum update `if mx and (cur is None or mx > cur):
cur = mx`, used both inside the stream loop (with mx = some end) and per
date in the orchestrator (with mx the stream's returned max). -/
def updMax (cur mx : Option DateTime) : Option DateTime :=
  match mx with
  | none => cur
  | some m =>
    match cur with
    | none => some m
    | some c => if c < m then some m else cur

def syncStep (w : Option DateTime) (acc : List Event × Nat × Option DateTime)
    (p : Event × DateTime) : List Event × Nat × Option DateTime :=
  if keepB w p.2 then (acc.1 ++ [p.1], acc.2.1 + 1, updMax acc.2.2 (some p.2))
  else acc

def syncStream {α : Type} (norm : α → Except SyncErr (Event × DateTime))
    (w : Option DateTime) :
    List α → (List Event × Nat × Option DateTime) →
    Except SyncErr (List Event × Nat × Option DateTime)
  | [], acc => .ok acc
  | it :: items, acc =>
    match norm it with
    | .error e => .error e
    | .ok p => syncStream norm w items (syncStep w acc p)

/-- Sleep sync for one date, given the raw sleepLevels list; returns
(inserted events, inserted count, max end time inserted). -/
def sync_sleep_data (raws : List RawSleepLevel) (w : Option DateTime) :
    Except SyncErr (List Event × Nat × Option DateTime) :=
  syncStream normalizeSleepLevel w raws ([], 0, none)

/-- Workout sync for one date, given the raw all-day events list. -/
def sync_workout_data (acts : List RawActivity) (w : Option DateTime) :
    Except SyncErr (List Event × Nat × Option DateTime) :=
  syncStream normalizeActivity w acts ([], 0, none)

/-! ## Persistent state management (load_state / save_state) -/

/-- The in-memory watermark state: one optional timestamp per stream. -/
structure StateMap where
  sleep : Option DateTime
  activity : Option DateTime
deriving DecidableEq

/-- What the state file can hold from load_state's point of view: no file,
bytes json.loads rejects, or a parsed JSON document. -/
inductive StateFileContent where
  | missing
  | unparseable
  | json (j : Json)

/-- Python dict lookup on parsed JSON object entries (last occurrence
wins, as in json.loads). -/
def lookupJ (k : String) (kvs : List (String × Json)) : Option Json :=
  List.lookup k kvs.reverse

/-- Field access raw.get(key) followed by `_iso_to_dt(ts) if
isinstance(ts, str) else None`; the error case is a strptime ValueError
escaping to the except clause of load_state. -/
def parseStateField (v : Option Json) : Except Unit (Option DateTime) :=
  match v with
  | some (Json.str s) =>
    match _iso_to_dt s with
    | some d => .ok (some d)
    | none => .error ()
  | _ => .ok none

/-- The loader load_state: missing file → all-absent; any exception while reading,
parsing or interpreting (corrupt bytes, non-dict document, malformed
timestamp string) → all-absent; otherwise per-field interpretation with
non-string fields mapped to None. -/
def load_state : StateFileContent → StateMap
  | .missing => ⟨none, none⟩
  | .unparseable => ⟨none, none⟩
  | .json j =>
    match j with
    | Json.obj kvs =>
      match parseStateField (lookupJ "sleep" kvs), parseStateField (lookupJ "activity" kvs) with
      | .ok s, .ok a => ⟨s, a⟩
      | _, _ => ⟨none, none⟩
    | _ => ⟨none, none⟩

/-- The JSON document save_state serializes: each stream's watermark rendered
through _dt_to_iso, absent watermarks as null. -/
def serializeState (m : StateMap) : Json :=
  Json.obj [("sleep", match m.sleep with | some d => Json.str (_dt_to_iso d) | none => Json.null),
            ("activity", match m.activity with | some d => Json.str (_dt_to_iso d) | none => Json.null)]

/-! ## Byte-level model of save_state for crash atomicity

save_state writes json.dumps(data, indent=2) to `path + ".tmp"` and then
atomically renames it over `path` (Path.replace / os.replace).  To reason
about crash points we model the filesystem as a partial map from paths to
byte strings and enumerate every state the filesystem can be in while
save_state runs, including torn writes of the temporary file. -/

def FS := String → Option String

def fsUpdate (fs : FS) (k : String) (v : Option String) : FS :=
  fun q => if q = k then v else fs q

/-- The temporary path state_path.with_suffix(state_path.suffix + ".tmp"),
which appends ".tmp". -/
def tmpName (p : String) : String := p ++ ".tmp"

/-- The text json.dumps({"sleep": ..., "activity": ...}, indent=2) for the
state document (timestamp strings contain no characters needing escapes). -/
def dumpsState (m : StateMap) : String :=
  let v1 := match m.sleep with | some d => "\"" ++ _dt_to_iso d ++ "\"" | none => "null"
  let v2 := match m.activity with | some d => "\"" ++ _dt_to_iso d ++ "\"" | none => "null"
  "\x7b\n  \"sleep\": " ++ v1 ++ ",\n  \"activity\": " ++ v2 ++ "\n\x7d"

/-- Every filesystem state reachable while save_state(path, m) executes on
initial filesystem fs: before any write, a torn or complete write of the
temporary file (arbitrary content covers any torn prefix), and after the
atomic rename, which installs the full bytes at path and drops the temp. -/
inductive SaveWrite (fs : FS) (path : String) (m : StateMap) : FS → Prop
  | before : SaveWrite fs path m fs
  | during (s : String) : SaveWrite fs path m (fsUpdate fs (tmpName path) (some s))
  | written : SaveWrite fs path m (fsUpdate fs (tmpName path) (some (dumpsState m)))
  | replaced : SaveWrite fs path m
      (fsUpdate (fsUpdate (fsUpdate fs (tmpName path) (some (dumpsState m)))
        path (some (dumpsState m))) (tmpName path) none)

/-! ## The orchestrator (sync_garmin_data) -/

/-- Outcomes of awc.create_bucket: the expected already-exists rejection, or
any other failure (connection error, server error, ...). -/
inductive BucketErr where
  | bucketExists
  | otherFailure
deriving DecidableEq, Repr

/-- The external collaborators of one run, fixed for its duration: whether
login / connect raise, the outcome of bucket creation, and the upstream
records served for each date string. -/
structure World where
  loginFails : Bool
  connectFails : Bool
  bucketResult : Except BucketErr Unit
  sleepRaw : String → List RawSleepLevel
  activityRaw : String → List RawActivity

inductive RunErr where
  | authError
  | connectionError
  | syncError (e : SyncErr)
deriving DecidableEq, Repr

/-- The observable outcome of a completed run. -/
structure RunOutcome where
  totalInserted : Nat
  sleepInserted : Nat
  activityInserted : Nat
  bucketCreated : Bool
  saved : Bool
  finalSleep : Option DateTime
  finalActivity : Option DateTime
  newStateFile : StateFileContent

def bucketOk : Except BucketErr Unit → Bool
  | .ok _ => true
  | .error _ => false

/-- The per-date loop of sync_garmin_data: both streams are synced against
the pre-run watermarks (lastSleep / lastActivity, never updated mid-run);
the accumulator carries (sleep count, activity count, running sleep max,
running activity max). -/
def runDates (w : World) (lastSleep lastActivity : Option DateTime) :
    List String → Nat × Nat × Option DateTime × Option DateTime →
    Except SyncErr (Nat × Nat × Option DateTime × Option DateTime)
  | [], acc => .ok acc
  | d :: ds, acc =>
    match sync_sleep_data (w.sleepRaw d) lastSleep with
    | .error e => .error e
    | .ok sres =>
      match sync_workout_data (w.activityRaw d) lastActivity with
      | .error e => .error e
      | .ok ares =>
        runDates w lastSleep lastActivity ds
          (acc.1 + sres.2.1, acc.2.1 + ares.2.1,
           updMax acc.2.2.1 sres.2.2, updMax acc.2.2.2 ares.2.2)

/-- The date window: the explicit date alone when given, else
[(today - offset).strftime("%Y-%m-%d") for offset in
 reversed(range(0, max(1, days_back) + 1))], oldest first, ending today.
`todayOrd` is today's proleptic-Gregorian ordinal. -/
def buildDates (date : Option String) (daysBack : Int) (todayOrd : Nat) : List String :=
  match date with
  | some d => [d]
  | none =>
    ((List.range ((max 1 daysBack).toNat + 1)).reverse).map
      (fun off => fmtDate (fromOrdinal (todayOrd - off)))

/-- The orchestrator sync_garmin_data: build the window (a pure computation, done before login
in the source), login, connect, attempt bucket creation with every exception
swallowed (printed as "using existing bucket"), load the watermark state, run
the per-date loop against the pre-run watermarks, and persist the state only
when it changed (`new_sleep_max != last_sleep or new_activity_max !=
last_activity`). -/
def run (w : World) (date : Option String) (daysBack : Int) (todayOrd : Nat)
    (sf : StateFileContent) : Except RunErr RunOutcome :=
  if w.loginFails then .error .authError
  else if w.connectFails then .error .connectionError
  else
    match runDates w (load_state sf).sleep (load_state sf).activity
        (buildDates date daysBack todayOrd)
        (0, 0, (load_state sf).sleep, (load_state sf).activity) with
    | .error e => .error (.syncError e)
    | .ok out =>
      .ok { totalInserted := out.1 + out.2.1
            sleepInserted := out.1
            activityInserted := out.2.1
            bucketCreated := bucketOk w.bucketResult
            saved := decide ¬(out.2.2.1 = (load_state sf).sleep) ||
                     decide ¬(out.2.2.2 = (load_state sf).activity)
            finalSleep := out.2.2.1
            finalActivity := out.2.2.2
            newStateFile :=
              if decide ¬(out.2.2.1 = (load_state sf).sleep) ||
                 decide ¬(out.2.2.2 = (load_state sf).activity)
              then .json (serializeState ⟨out.2.2.1, out.2.2.2⟩) else sf }

/-! ## Order on optional watermarks (absent below everything) -/

def optLe : Option DateTime → Option DateTime → Prop
  | none, _ => True
  | some _, none => False
  | some a, some b => a ≤ b

def optLt : Option DateTime → Option DateTime → Prop
  | _, none => False
  | none, some _ => True
  | some a, some b => a < b

instance : (a b : Option DateTime) → Decidable (optLe a b)
  | none, _ => isTrue trivial
  | some _, none => isFalse fun h => h
  | some x, some y => inferInstanceAs (Decidable (x ≤ y))

instance : (a b : Option DateTime) → Decidable (optLt a b)
  | none, none => isFalse fun h => h
  | some _, none => isFalse fun h => h
  | none, some _ => isTrue trivial
  | some x, some y => inferInstanceAs (Decidable (x < y))

/-! ## Helper lemmas: options, running maxima, Except -/

theorem DateTime.not_lt {a b : DateTime} : ¬ a < b ↔ b ≤ a := Nat.not_lt

theorem optLe_refl (a : Option DateTime) : optLe a a := by
  cases a with
  | none => trivial
  | some x => exact Nat.le_refl _

theorem optLe_trans {a b c : Option DateTime} (h1 : optLe a b) (h2 : optLe b c) : optLe a c := by
  cases a with
  | none => trivial
  | some x =>
    cases b with
    | none => exact absurd h1 (by simp [optLe])
    | some y =>
      cases c with
      | none => exact absurd h2 (by simp [optLe])
      | some z => exact DateTime.le_trans h1 h2

theorem optLe_some_none {x : DateTime} (h : optLe (some x) none) : False := h

theorem optLe_ne_iff_lt {a b : Option DateTime} (h : optLe a b) : a ≠ b ↔ optLt a b := by
  cases a with
  | none =>
    cases b with
    | none => simp [optLt]
    | some y => simp [optLt]
  | some x =>
    cases b with
    | none => exact absurd h (by simp [optLe])
    | some y =>
      constructor
      · intro hne
        exact DateTime.lt_of_le_of_ne h (fun he => hne (he ▸ rfl))
      · intro hlt he
        cases he
        exact absurd hlt (by simp [optLt, DateTime.lt_def])

theorem updMax_none_right (cur : Option DateTime) : updMax cur none = cur := rfl

theorem optLe_updMax_left (cur mx : Option DateTime) : optLe cur (updMax cur mx) := by
  cases mx with
  | none => exact optLe_refl _
  | some m =>
    cases cur with
    | none => trivial
    | some c =>
      simp only [updMax]
      by_cases h : c < m
      · simp only [if_pos h]
        exact DateTime.le_of_lt h
      · simp only [if_neg h]
        exact optLe_refl (some c)

theorem optLe_updMax_right (cur mx : Option DateTime) : optLe mx (updMax cur mx) := by
  cases mx with
  | none => trivial
  | some m =>
    cases cur with
    | none => exact Nat.le_refl _
    | some c =>
      simp only [updMax]
      by_cases h : c < m
      · simp only [if_pos h]
        exact Nat.le_refl _
      · simp only [if_neg h]
        exact DateTime.not_lt.mp h

theorem updMax_cases (cur mx : Option DateTime) : updMax cur mx = cur ∨ updMax cur mx = mx := by
  cases mx with
  | none => exact Or.inl rfl
  | some m =>
    cases cur with
    | none => exact Or.inr rfl
    | some c =>
      simp only [updMax]
      by_cases h : c < m
      · simp [h]
      · simp [h]

theorem updMax_some_isSome (cur : Option DateTime) (m : DateTime) :
    ∃ v, updMax cur (some m) = some v := by
  cases cur with
  | none => exact ⟨m, rfl⟩
  | some c =>
    simp only [updMax]
    by_cases h : c < m
    · exact ⟨m, by simp [h]⟩
    · exact ⟨c, by simp [h]⟩

@[simp] theorem exceptMap_ok {ε α β : Type} (f : α → β) (a : α) :
    (Except.ok a : Except ε α).map f = .ok (f a) := rfl

@[simp] theorem exceptMap_error {ε α β : Type} (f : α → β) (e : ε) :
    (Except.error e : Except ε α).map f = .error e := rfl

@[simp] theorem optBind_some {α β : Type} (a : α) (f : α → Option β) :
    (Option.some a).bind f = f a := rfl

@[simp] theorem optBind_none {α β : Type} (f : α → Option β) :
    (Option.none : Option α).bind f = none := rfl

@[simp] theorem optSeqBind_some {α β : Type} (a : α) (f : α → Option β) :
    (Bind.bind (Option.some a) f) = f a := rfl

@[simp] theorem optSeqBind_none {α β : Type} (f : α → Option β) :
    (Bind.bind (Option.none : Option α) f) = none := rfl

/-! ## Format/parse roundtrip for the persisted ISO form -/

theorem dChar_digitB {k : Nat} (h : k ≤ 9) : digitB (dChar k) = true := by
  interval_cases k <;> rfl

theorem dval_dChar {k : Nat} (h : k ≤ 9) : dval (dChar k) = k := by
  interval_cases k <;> rfl

theorem parse4_pad4 {y : Nat} (hy : y ≤ 9999) (r : List Char) :
    parse4 (pad4 y ++ r) = some (y, r) := by
  have h1 : y / 1000 % 10 ≤ 9 := by omega
  have h2 : y / 100 % 10 ≤ 9 := by omega
  have h3 : y / 10 % 10 ≤ 9 := by omega
  have h4 : y % 10 ≤ 9 := by omega
  simp only [pad4, List.cons_append, List.nil_append, parse4,
    dChar_digitB h1, dChar_digitB h2, dChar_digitB h3, dChar_digitB h4,
    dval_dChar h1, dval_dChar h2, dval_dChar h3, dval_dChar h4,
    Bool.and_self, if_true]
  have : ((y / 1000 % 10 * 10 + y / 100 % 10) * 10 + y / 10 % 10) * 10 + y % 10 = y := by omega
  rw [this]

theorem parse21_pad2 {lo2 hi2 v : Nat} (lo1 hi1 : Nat) (hlo : lo2 ≤ v) (hhi : v ≤ hi2)
    (hv : v ≤ 99) (r : List Char) :
    parse21 lo2 hi2 lo1 hi1 (pad2 v ++ r) = some (v, r) := by
  have h1 : v / 10 % 10 ≤ 9 := by omega
  have h2 : v % 10 ≤ 9 := by omega
  simp only [pad2, List.cons_append, List.nil_append, parse21,
    dChar_digitB h1, dChar_digitB h2, dval_dChar h1, dval_dChar h2, if_true]
  have hval : v / 10 % 10 * 10 + v % 10 = v := by omega
  rw [hval]
  simp [hlo, hhi]

theorem lit_self (c : Char) (r : List Char) : lit c (c :: r) = some r := by
  simp [lit]

theorem daysInMonth_le31 (y m : Nat) : daysInMonth y m ≤ 31 := by
  unfold daysInMonth
  split
  any_goals omega
  split <;> omega

/-- Truncation to whole seconds: what a serialize/parse cycle does to the
microsecond field. -/
def truncDT (t : DateTime) : DateTime :=
  ⟨t.year, t.month, t.day, t.hour, t.minute, t.second, 0, t.year_pos, t.year_le,
   t.month_pos, t.month_le, t.day_pos, t.day_le, t.hour_le, t.minute_le,
   t.second_le, Nat.zero_le _⟩

theorem iso_roundtrip (t : DateTime) :
    _iso_to_dt (_dt_to_iso t) = some (truncDT t) := by
  have hday : t.day ≤ 31 := le_trans t.day_le (daysInMonth_le31 _ _)
  show parseStamp ['Z'] (pad4 t.year ++ '-' :: (pad2 t.month ++ '-' :: (pad2 t.day ++ 'T' ::
    (pad2 t.hour ++ ':' :: (pad2 t.minute ++ ':' :: (pad2 t.second ++ ['Z'])))))) = some (truncDT t)
  unfold parseStamp
  simp only [parse4_pad4 t.year_le, optSeqBind_some, lit_self,
    parse21_pad2 1 9 t.month_pos t.month_le (le_trans t.month_le (by omega)),
    parse21_pad2 1 9 t.day_pos hday (le_trans hday (by omega)),
    parse21_pad2 0 9 (Nat.zero_le _) t.hour_le (le_trans t.hour_le (by omega)),
    parse21_pad2 0 9 (Nat.zero_le _) t.minute_le (le_trans t.minute_le (by omega)),
    parse21_pad2 0 9 (Nat.zero_le _) (le_trans t.second_le (by omega) : t.second ≤ 61)
      (le_trans t.second_le (by omega)),
    lits]
  unfold mkDT?
  rw [dif_pos ⟨t.year_pos, t.year_le, t.month_pos, t.month_le, t.day_pos, t.day_le,
    t.hour_le, t.minute_le, t.second_le, Nat.zero_le _⟩]
  rfl

/-! ## Microsecond-zero propagation: every timestamp the pipeline computes
has microsecond 0, which is what makes the serialize/parse cycle lossless. -/

theorem mkDT?_micro {y mo d h mi s us : Nat} {r : DateTime}
    (hr : mkDT? y mo d h mi s us = some r) : r.micro = us := by
  unfold mkDT? at hr
  split at hr
  · cases hr; rfl
  · simp at hr

theorem parseStamp_micro {suf l : List Char} {d : DateTime}
    (h : parseStamp suf l = some d) : d.micro = 0 := by
  unfold parseStamp at h
  repeat' split at h
  all_goals first
    | exact mkDT?_micro h
    | simp at h

theorem addSeconds_micro {t : DateTime} {delta : Int} {r : DateTime}
    (h : addSeconds t delta = some r) : r.micro = t.micro := by
  unfold addSeconds at h
  split at h
  · simp at h
  · exact mkDT?_micro h

theorem normalizeSleepLevel_end_micro {r : RawSleepLevel} {p : Event × DateTime}
    (h : normalizeSleepLevel r = .ok p) : p.2.micro = 0 := by
  unfold normalizeSleepLevel at h
  cases hs : parseSleepTs r.startGMT with
  | none => simp only [hs] at h; exact Except.noConfusion h
  | some startT =>
    simp only [hs] at h
    cases he : parseSleepTs r.endGMT with
    | none => simp only [he] at h; exact Except.noConfusion h
    | some endT =>
      simp only [he] at h
      cases hl : levelName r.activityLevel with
      | error e => simp only [hl] at h; exact Except.noConfusion h
      | ok lvl =>
        simp only [hl] at h
        cases ha : addSeconds startT (diffSeconds endT startT) with
        | none => simp only [ha] at h; exact Except.noConfusion h
        | some endTime =>
          simp only [ha] at h
          cases h
          exact (addSeconds_micro ha).trans (parseStamp_micro hs)

theorem normalizeActivity_end_micro {a : RawActivity} {p : Event × DateTime}
    (h : normalizeActivity a = .ok p) : p.2.micro = 0 := by
  unfold normalizeActivity at h
  cases hs : parseSleepTs (actStartStr a.startTimestampGMT) with
  | none => simp only [hs] at h; exact Except.noConfusion h
  | some startT =>
    simp only [hs] at h
    cases ha : addSeconds startT (actDurationMinutes a.duration * 60) with
    | none => simp only [ha] at h; exact Except.noConfusion h
    | some endTime =>
      simp only [ha] at h
      cases h
      exact (addSeconds_micro ha).trans (parseStamp_micro hs)

/-! ## Specification shape of the per-stream loop

`syncStream` is the loop as written; `normAll`/`keptOf`/`maxEndsFrom` express
its result as normalize-everything, filter by the watermark, and fold the
running maximum — the shape the dedup claims are stated against. -/

def normAll {α : Type} (norm : α → Except SyncErr (Event × DateTime)) :
    List α → Except SyncErr (List (Event × DateTime))
  | [] => .ok []
  | it :: items =>
    match norm it with
    | .error e => .error e
    | .ok p => (normAll norm items).map (fun nl => p :: nl)

def keptOf (w : Option DateTime) (nl : List (Event × DateTime)) :
    List (Event × DateTime) :=
  nl.filter (fun p => keepB w p.2)

def maxEndsFrom (m0 : Option DateTime) (l : List DateTime) : Option DateTime :=
  l.foldl (fun acc e => updMax acc (some e)) m0

theorem syncStream_spec_go {α : Type} (norm : α → Except SyncErr (Event × DateTime))
    (w : Option DateTime) :
    ∀ (items : List α) (acc : List Event × Nat × Option DateTime),
      syncStream norm w items acc = (normAll norm items).map (fun nl =>
        (acc.1 ++ (keptOf w nl).map Prod.fst,
         acc.2.1 + (keptOf w nl).length,
         maxEndsFrom acc.2.2 ((keptOf w nl).map Prod.snd))) := by
  intro items
  induction items with
  | nil =>
    intro acc
    simp [syncStream, normAll, keptOf, maxEndsFrom]
  | cons it items ih =>
    intro acc
    unfold syncStream normAll
    cases hn : norm it with
    | error e => simp
    | ok p =>
      dsimp only
      rw [ih (syncStep w acc p)]
      cases hna : normAll norm items with
      | error e => simp
      | ok nl =>
        simp only [exceptMap_ok, Except.ok.injEq]
        unfold syncStep keptOf
        cases hk : keepB w p.2 with
        | false =>
          simp only [hk, List.filter_cons, Bool.false_eq_true, if_false]
        | true =>
          simp only [hk, List.filter_cons, if_true]
          simp only [List.map_cons, List.length_cons, Prod.mk.injEq]
          refine ⟨?_, ?_, ?_⟩
          · simp [List.append_assoc]
          · omega
          · rfl

theorem syncStream_spec {α : Type} (norm : α → Except SyncErr (Event × DateTime))
    (w : Option DateTime) (items : List α) :
    syncStream norm w items ([], 0, none) = (normAll norm items).map (fun nl =>
      ((keptOf w nl).map Prod.fst,
       (keptOf w nl).length,
       maxEndsFrom none ((keptOf w nl).map Prod.snd))) := by
  rw [syncStream_spec_go]
  cases normAll norm items <;> simp

theorem maxEndsFrom_init_le : ∀ (l : List DateTime) (m0 : Option DateTime),
    optLe m0 (maxEndsFrom m0 l)
  | [], _ => optLe_refl _
  | e :: l, m0 =>
    optLe_trans (optLe_updMax_left m0 (some e)) (maxEndsFrom_init_le l (updMax m0 (some e)))

theorem maxEndsFrom_mem_le : ∀ (l : List DateTime) (m0 : Option DateTime) (e : DateTime),
    e ∈ l → optLe (some e) (maxEndsFrom m0 l) := by
  intro l
  induction l with
  | nil => intro m0 e he; cases he
  | cons a l ih =>
    intro m0 e he
    rcases List.mem_cons.mp he with rfl | hm
    · exact optLe_trans (optLe_updMax_right m0 (some e)) (maxEndsFrom_init_le l _)
    · exact ih _ e hm

theorem maxEndsFrom_none_eq : ∀ (l : List DateTime) (m0 : Option DateTime),
    maxEndsFrom m0 l = none → l = [] ∧ m0 = none := by
  intro l
  induction l with
  | nil => intro m0 h; exact ⟨rfl, h⟩
  | cons e l ih =>
    intro m0 h
    obtain ⟨v, hv⟩ := updMax_some_isSome m0 e
    have h2 := (ih (updMax m0 (some e)) h).2
    rw [h2] at hv
    exact Option.noConfusion hv

theorem maxEndsFrom_mem_source : ∀ (l : List DateTime) (m0 : Option DateTime) (v : DateTime),
    maxEndsFrom m0 l = some v → v ∈ l ∨ m0 = some v := by
  intro l
  induction l with
  | nil => intro m0 v h; exact Or.inr h
  | cons e l ih =>
    intro m0 v h
    rcases ih (updMax m0 (some e)) v h with hm | hu
    · exact Or.inl (List.mem_cons_of_mem _ hm)
    · rcases updMax_cases m0 (some e) with hc | hc
      · rw [hc] at hu; exact Or.inr hu
      · rw [hc] at hu
        injection hu with hv
        exact Or.inl (hv ▸ List.mem_cons_self _ _)

theorem keepB_true_iff {w : Option DateTime} {e : DateTime} :
    keepB w e = true ↔ (w = none ∨ ∃ v, w = some v ∧ v < e) := by
  cases w with
  | none => simp [keepB]
  | some v =>
    simp only [keepB, Bool.not_eq_true']
    constructor
    · intro h
      refine Or.inr ⟨v, rfl, ?_⟩
      exact DateTime.not_le.mp (by simpa using h)
    · rintro (h | ⟨u, hu, hlt⟩)
      · exact Option.noConfusion h
      · injection hu with hu
        subst hu
        simpa using DateTime.not_le.mpr hlt

theorem keepB_false_iff {w : Option DateTime} {e : DateTime} :
    keepB w e = false ↔ ∃ v, w = some v ∧ e ≤ v := by
  cases w with
  | none => simp [keepB]
  | some v =>
    simp only [keepB, Bool.not_eq_false']
    constructor
    · intro h
      exact ⟨v, rfl, by simpa using h⟩
    · rintro ⟨u, hu, hle⟩
      injection hu with hu
      subst hu
      simpa using hle

theorem optLe_some_dest {x : DateTime} {W : Option DateTime} (h : optLe (some x) W) :
    ∃ u, W = some u ∧ x ≤ u := by
  cases W with
  | none => exact absurd h (by simp [optLe])
  | some u => exact ⟨u, rfl, h⟩

theorem syncStream_components {α : Type} {norm : α → Except SyncErr (Event × DateTime)}
    {w : Option DateTime} {items : List α} {evs : List Event} {c : Nat} {mx : Option DateTime}
    (h : syncStream norm w items ([], 0, none) = .ok (evs, c, mx)) :
    ∃ nl, normAll norm items = .ok nl ∧ evs = (keptOf w nl).map Prod.fst ∧
      c = (keptOf w nl).length ∧ mx = maxEndsFrom none ((keptOf w nl).map Prod.snd) := by
  rw [syncStream_spec] at h
  cases hna : normAll norm items with
  | error e => rw [hna] at h; exact Except.noConfusion h
  | ok nl =>
    rw [hna] at h
    simp only [exceptMap_ok, Except.ok.injEq, Prod.mk.injEq] at h
    exact ⟨nl, rfl, h.1.symm, h.2.1.symm, h.2.2.symm⟩

/-- A stream sync succeeds or fails independently of the watermark: success is
exactly normalizability of every record (parsing happens before the filter). -/
theorem syncStream_ok_shift {α : Type} {norm : α → Except SyncErr (Event × DateTime)}
    {w : Option DateTime} {items : List α} {r : List Event × Nat × Option DateTime}
    (h : syncStream norm w items ([], 0, none) = .ok r) (W : Option DateTime) :
    ∃ r2, syncStream norm W items ([], 0, none) = .ok r2 := by
  obtain ⟨nl, hna, -, -, -⟩ := syncStream_components (h.trans (congrArg _ rfl))
  rw [syncStream_spec, hna]
  exact ⟨_, rfl⟩

/-- Absorption: re-syncing with any watermark at least the old one and at
least the previous run's maximum inserted end yields no insertions at all. -/
theorem syncStream_absorbed {α : Type} {norm : α → Except SyncErr (Event × DateTime)}
    {w W : Option DateTime} {items : List α} {evs : List Event} {c : Nat} {mx : Option DateTime}
    (h : syncStream norm w items ([], 0, none) = .ok (evs, c, mx))
    (hW1 : optLe w W) (hW2 : optLe mx W) :
    syncStream norm W items ([], 0, none) = .ok ([], 0, none) := by
  obtain ⟨nl, hna, -, -, hmx⟩ := syncStream_components h
  rw [syncStream_spec, hna]
  have hkept : keptOf W nl = [] := by
    unfold keptOf
    rw [List.filter_eq_nil_iff]
    intro p hp
    cases hkw : keepB w p.2 with
    | true =>
      have hpk : p ∈ keptOf w nl := List.mem_filter.mpr ⟨hp, hkw⟩
      have h1 : optLe (some p.2) mx := by
        rw [hmx]
        exact maxEndsFrom_mem_le _ none p.2 (List.mem_map_of_mem Prod.snd hpk)
      obtain ⟨u, hu, hle⟩ := optLe_some_dest (optLe_trans h1 hW2)
      simp [keepB_false_iff.mpr ⟨u, hu, hle⟩]
    | false =>
      obtain ⟨v, hv, hev⟩ := keepB_false_iff.mp hkw
      subst hv
      obtain ⟨u, hu, hvu⟩ := optLe_some_dest hW1
      simp [keepB_false_iff.mpr ⟨u, hu, DateTime.le_trans hev hvu⟩]
  simp only [exceptMap_ok, hkept]
  simp [maxEndsFrom]

/-- A stream sync that inserted nothing reports no maximum end time. -/
theorem syncStream_zero_mx {α : Type} {norm : α → Except SyncErr (Event × DateTime)}
    {w : Option DateTime} {items : List α} {evs : List Event} {mx : Option DateTime}
    (h : syncStream norm w items ([], 0, none) = .ok (evs, 0, mx)) : mx = none := by
  obtain ⟨nl, -, -, hc, hmx⟩ := syncStream_components h
  have hk : keptOf w nl = [] := List.length_eq_zero.mp hc.symm
  rw [hk] at hmx
  simpa [maxEndsFrom] using hmx

theorem normAll_mem {α : Type} {norm : α → Except SyncErr (Event × DateTime)} :
    ∀ {items : List α} {nl}, normAll norm items = .ok nl →
      ∀ p ∈ nl, ∃ it, norm it = .ok p := by
  intro items
  induction items with
  | nil =>
    intro nl h p hp
    unfold normAll at h
    cases h
    cases hp
  | cons it items ih =>
    intro nl h p hp
    unfold normAll at h
    cases hn : norm it with
    | error e => simp only [hn] at h; exact Except.noConfusion h
    | ok q =>
      simp only [hn] at h
      cases hna : normAll norm items with
      | error e => rw [hna] at h; exact Except.noConfusion h
      | ok nl2 =>
        rw [hna] at h
        simp only [exceptMap_ok, Except.ok.injEq] at h
        subst h
        rcases List.mem_cons.mp hp with rfl | hm
        · exact ⟨it, hn⟩
        · exact ih hna p hm

def microZeroOpt (o : Option DateTime) : Prop := ∀ d, o = some d → d.micro = 0

theorem microZeroOpt_none : microZeroOpt none := fun d h => Option.noConfusion h

theorem updMax_micro {cur mx : Option DateTime}
    (h1 : microZeroOpt cur) (h2 : microZeroOpt mx) : microZeroOpt (updMax cur mx) := by
  rcases updMax_cases cur mx with h | h <;> rw [h] <;> assumption

/-- The maximum end reported by a stream sync has microsecond 0, because every
end time the normalizers compute does. -/
theorem syncStream_mx_micro {α : Type} {norm : α → Except SyncErr (Event × DateTime)}
    {w : Option DateTime} {items : List α} {evs : List Event} {c : Nat} {mx : Option DateTime}
    (hend : ∀ it p, norm it = .ok p → p.2.micro = 0)
    (h : syncStream norm w items ([], 0, none) = .ok (evs, c, mx)) :
    microZeroOpt mx := by
  intro d hd
  obtain ⟨nl, hna, -, -, hmx⟩ := syncStream_components h
  rw [hmx] at hd
  rcases maxEndsFrom_mem_source _ none d hd with hm | h0
  · obtain ⟨p, hpk, hpd⟩ := List.mem_map.mp hm
    have hpn : p ∈ nl := List.mem_of_mem_filter hpk
    obtain ⟨it, hit⟩ := normAll_mem hna p hpn
    rw [← hpd]
    exact hend it p hit
  · exact Option.noConfusion h0

/-! ## Facts about the per-date orchestration loop -/

theorem runDates_mono {w : World} {ls la : Option DateTime} :
    ∀ {ds : List String} {acc out},
      runDates w ls la ds acc = .ok out →
      optLe acc.2.2.1 out.2.2.1 ∧ optLe acc.2.2.2 out.2.2.2 ∧
        acc.1 ≤ out.1 ∧ acc.2.1 ≤ out.2.1 := by
  intro ds
  induction ds with
  | nil =>
    intro acc out h
    unfold runDates at h
    cases h
    exact ⟨optLe_refl _, optLe_refl _, Nat.le_refl _, Nat.le_refl _⟩
  | cons d ds ih =>
    intro acc out h
    unfold runDates at h
    cases hs : sync_sleep_data (w.sleepRaw d) ls with
    | error e => simp only [hs] at h; exact Except.noConfusion h
    | ok sres =>
      simp only [hs] at h
      cases ha : sync_workout_data (w.activityRaw d) la with
      | error e => simp only [ha] at h; exact Except.noConfusion h
      | ok ares =>
        simp only [ha] at h
        obtain ⟨h1, h2, h3, h4⟩ := ih h
        exact ⟨optLe_trans (optLe_updMax_left _ _) h1,
               optLe_trans (optLe_updMax_left _ _) h2,
               Nat.le_trans (Nat.le_add_right _ _) h3,
               Nat.le_trans (Nat.le_add_right _ _) h4⟩

theorem runDates_dates {w : World} {ls la : Option DateTime} :
    ∀ {ds : List String} {acc out},
      runDates w ls la ds acc = .ok out → ∀ d ∈ ds,
        (∃ rs, sync_sleep_data (w.sleepRaw d) ls = .ok rs ∧ optLe rs.2.2 out.2.2.1) ∧
        (∃ ra, sync_workout_data (w.activityRaw d) la = .ok ra ∧ optLe ra.2.2 out.2.2.2) := by
  intro ds
  induction ds with
  | nil => intro acc out h d hd; cases hd
  | cons d0 ds ih =>
    intro acc out h d hd
    unfold runDates at h
    cases hs : sync_sleep_data (w.sleepRaw d0) ls with
    | error e => simp only [hs] at h; exact Except.noConfusion h
    | ok sres =>
      simp only [hs] at h
      cases ha : sync_workout_data (w.activityRaw d0) la with
      | error e => simp only [ha] at h; exact Except.noConfusion h
      | ok ares =>
        simp only [ha] at h
        rcases List.mem_cons.mp hd with rfl | hm
        · obtain ⟨h1, h2, -, -⟩ := runDates_mono h
          exact ⟨⟨sres, hs, optLe_trans (optLe_updMax_right _ _) h1⟩,
                 ⟨ares, ha, optLe_trans (optLe_updMax_right _ _) h2⟩⟩
        · exact ih h d hm

theorem runDates_stable_sleep {w : World} {ls la : Option DateTime} :
    ∀ {ds : List String} {acc out},
      runDates w ls la ds acc = .ok out → out.1 = acc.1 → out.2.2.1 = acc.2.2.1 := by
  intro ds
  induction ds with
  | nil =>
    intro acc out h _
    unfold runDates at h
    cases h
    rfl
  | cons d ds ih =>
    intro acc out h hz
    unfold runDates at h
    cases hs : sync_sleep_data (w.sleepRaw d) ls with
    | error e => simp only [hs] at h; exact Except.noConfusion h
    | ok sres =>
      simp only [hs] at h
      cases ha : sync_workout_data (w.activityRaw d) la with
      | error e => simp only [ha] at h; exact Except.noConfusion h
      | ok ares =>
        simp only [ha] at h
        obtain ⟨-, -, h3, -⟩ := runDates_mono h
        have hc : sres.2.1 = 0 := by omega
        have he : sres = (sres.1, 0, sres.2.2) := by rw [← hc]
        rw [he] at hs
        have hmx : sres.2.2 = none := syncStream_zero_mx hs
        have hrec := ih h (by omega)
        rw [hrec, hmx, updMax_none_right]

theorem runDates_stable_act {w : World} {ls la : Option DateTime} :
    ∀ {ds : List String} {acc out},
      runDates w ls la ds acc = .ok out → out.2.1 = acc.2.1 → out.2.2.2 = acc.2.2.2 := by
  intro ds
  induction ds with
  | nil =>
    intro acc out h _
    unfold runDates at h
    cases h
    rfl
  | cons d ds ih =>
    intro acc out h hz
    unfold runDates at h
    cases hs : sync_sleep_data (w.sleepRaw d) ls with
    | error e => simp only [hs] at h; exact Except.noConfusion h
    | ok sres =>
      simp only [hs] at h
      cases ha : sync_workout_data (w.activityRaw d) la with
      | error e => simp only [ha] at h; exact Except.noConfusion h
      | ok ares =>
        simp only [ha] at h
        obtain ⟨-, -, -, h4⟩ := runDates_mono h
        dsimp only at h4
        have hc : ares.2.1 = 0 := by omega
        have he : ares = (ares.1, 0, ares.2.2) := by rw [← hc]
        rw [he] at ha
        have hmx : ares.2.2 = none := syncStream_zero_mx ha
        have hrec := ih h (by dsimp only; omega)
        rw [hrec, hmx, updMax_none_right]

theorem runDates_zero {w : World} {LS LA : Option DateTime} :
    ∀ (ds : List String) (acc : Nat × Nat × Option DateTime × Option DateTime),
      (∀ d ∈ ds, sync_sleep_data (w.sleepRaw d) LS = .ok ([], 0, none) ∧
                 sync_workout_data (w.activityRaw d) LA = .ok ([], 0, none)) →
      runDates w LS LA ds acc = .ok acc := by
  intro ds
  induction ds with
  | nil => intro acc _; rfl
  | cons d ds ih =>
    intro acc hall
    obtain ⟨hs, ha⟩ := hall d (List.mem_cons_self _ _)
    unfold runDates
    simp only [hs, ha]
    have harg : (acc.1 + 0, acc.2.1 + 0, updMax acc.2.2.1 none, updMax acc.2.2.2 none) = acc := by
      simp [updMax_none_right]
    rw [harg]
    exact ih acc (fun d2 h2 => hall d2 (List.mem_cons_of_mem _ h2))

theorem runDates_micro {w : World} {ls la : Option DateTime} :
    ∀ {ds : List String} {acc out},
      microZeroOpt acc.2.2.1 → microZeroOpt acc.2.2.2 →
      runDates w ls la ds acc = .ok out →
      microZeroOpt out.2.2.1 ∧ microZeroOpt out.2.2.2 := by
  intro ds
  induction ds with
  | nil =>
    intro acc out h1 h2 h
    unfold runDates at h
    cases h
    exact ⟨h1, h2⟩
  | cons d ds ih =>
    intro acc out h1 h2 h
    unfold runDates at h
    cases hs : sync_sleep_data (w.sleepRaw d) ls with
    | error e => simp only [hs] at h; exact Except.noConfusion h
    | ok sres =>
      simp only [hs] at h
      cases ha : sync_workout_data (w.activityRaw d) la with
      | error e => simp only [ha] at h; exact Except.noConfusion h
      | ok ares =>
        simp only [ha] at h
        have hsm : microZeroOpt sres.2.2 :=
          syncStream_mx_micro (fun _ _ hp => normalizeSleepLevel_end_micro hp) hs
        have ham : microZeroOpt ares.2.2 :=
          syncStream_mx_micro (fun _ _ hp => normalizeActivity_end_micro hp) ha
        exact ih (updMax_micro h1 hsm) (updMax_micro h2 ham) h

/-! ## State-file lemmas -/

theorem truncDT_eq {d : DateTime} (h : d.micro = 0) : truncDT d = d :=
  DateTime.ext_fields rfl rfl rfl rfl rfl rfl h.symm

theorem parseStateField_roundtrip {d : DateTime} (hd : d.micro = 0) :
    parseStateField (some (Json.str (_dt_to_iso d))) = .ok (some d) := by
  unfold parseStateField
  dsimp only
  rw [iso_roundtrip, truncDT_eq hd]

theorem parseStateField_micro {v : Option Json} {o : Option DateTime}
    (h : parseStateField v = .ok o) : microZeroOpt o := by
  unfold parseStateField at h
  intro d hd
  split at h
  · rename_i s
    cases hp : _iso_to_dt s with
    | none => rw [hp] at h; exact Except.noConfusion h
    | some dd =>
      rw [hp] at h
      cases h
      cases hd
      exact parseStamp_micro hp
  · cases h
    exact Option.noConfusion hd

theorem load_state_obj {kvs : List (String × Json)} {s a : Option DateTime}
    (h1 : parseStateField (lookupJ "sleep" kvs) = .ok s)
    (h2 : parseStateField (lookupJ "activity" kvs) = .ok a) :
    load_state (.json (.obj kvs)) = ⟨s, a⟩ := by
  unfold load_state
  dsimp only
  rw [h1, h2]

theorem load_state_micro (sf : StateFileContent) :
    microZeroOpt (load_state sf).sleep ∧ microZeroOpt (load_state sf).activity := by
  cases sf with
  | missing => exact ⟨microZeroOpt_none, microZeroOpt_none⟩
  | unparseable => exact ⟨microZeroOpt_none, microZeroOpt_none⟩
  | json j =>
    cases j with
    | obj kvs =>
      unfold load_state
      dsimp only
      cases h1 : parseStateField (lookupJ "sleep" kvs) with
      | error e => exact ⟨microZeroOpt_none, microZeroOpt_none⟩
      | ok s =>
        cases h2 : parseStateField (lookupJ "activity" kvs) with
        | error e => exact ⟨microZeroOpt_none, microZeroOpt_none⟩
        | ok a => exact ⟨parseStateField_micro h1, parseStateField_micro h2⟩
    | null => exact ⟨microZeroOpt_none, microZeroOpt_none⟩
    | str s => exact ⟨microZeroOpt_none, microZeroOpt_none⟩
    | num n => exact ⟨microZeroOpt_none, microZeroOpt_none⟩
    | bool b => exact ⟨microZeroOpt_none, microZeroOpt_none⟩

/-- Loading right after serializing returns the state unchanged for
whole-second watermarks: the roundtrip behind idempotence. -/
theorem load_serialize {m : StateMap} (hs : microZeroOpt m.sleep)
    (ha : microZeroOpt m.activity) :
    load_state (.json (serializeState m)) = m := by
  obtain ⟨ms, ma⟩ := m
  cases ms with
  | none =>
    cases ma with
    | none => rfl
    | some e => exact load_state_obj rfl (parseStateField_roundtrip (ha e rfl))
  | some d =>
    cases ma with
    | none => exact load_state_obj (parseStateField_roundtrip (hs d rfl)) rfl
    | some e =>
      exact load_state_obj (parseStateField_roundtrip (hs d rfl))
        (parseStateField_roundtrip (ha e rfl))

/-! ## Inversion and construction for whole runs -/

theorem run_ok_inv {w : World} {date : Option String} {db : Int} {today : Nat}
    {sf : StateFileContent} {o : RunOutcome}
    (h : run w date db today sf = .ok o) :
    w.loginFails = false ∧ w.connectFails = false ∧
    ∃ out, runDates w (load_state sf).sleep (load_state sf).activity
        (buildDates date db today) (0, 0, (load_state sf).sleep, (load_state sf).activity) = .ok out ∧
      o.sleepInserted = out.1 ∧ o.activityInserted = out.2.1 ∧
      o.totalInserted = out.1 + out.2.1 ∧
      o.finalSleep = out.2.2.1 ∧ o.finalActivity = out.2.2.2 ∧
      o.saved = (decide ¬(out.2.2.1 = (load_state sf).sleep) ||
                 decide ¬(out.2.2.2 = (load_state sf).activity)) ∧
      o.newStateFile = (if decide ¬(out.2.2.1 = (load_state sf).sleep) ||
                           decide ¬(out.2.2.2 = (load_state sf).activity)
                        then StateFileContent.json (serializeState ⟨out.2.2.1, out.2.2.2⟩)
                        else sf) := by
  unfold run at h
  cases hl : w.loginFails with
  | true => rw [hl] at h; simp at h
  | false =>
    rw [hl] at h
    cases hc : w.connectFails with
    | true => rw [hc] at h; simp at h
    | false =>
      rw [hc] at h
      simp only [Bool.false_eq_true, if_false] at h
      cases hRD : runDates w (load_state sf).sleep (load_state sf).activity
          (buildDates date db today) (0, 0, (load_state sf).sleep, (load_state sf).activity) with
      | error e => rw [hRD] at h; exact Except.noConfusion h
      | ok out =>
        rw [hRD] at h
        cases h
        exact ⟨rfl, rfl, out, rfl, rfl, rfl, rfl, rfl, rfl, rfl, rfl⟩

theorem run_ok_intro {w : World} {date : Option String} {db : Int} {today : Nat}
    {sf : StateFileContent} {out : Nat × Nat × Option DateTime × Option DateTime}
    (hl : w.loginFails = false) (hc : w.connectFails = false)
    (hRD : runDates w (load_state sf).sleep (load_state sf).activity
      (buildDates date db today) (0, 0, (load_state sf).sleep, (load_state sf).activity) = .ok out) :
    run w date db today sf = .ok
      { totalInserted := out.1 + out.2.1
        sleepInserted := out.1
        activityInserted := out.2.1
        bucketCreated := bucketOk w.bucketResult
        saved := decide ¬(out.2.2.1 = (load_state sf).sleep) ||
                 decide ¬(out.2.2.2 = (load_state sf).activity)
        finalSleep := out.2.2.1
        finalActivity := out.2.2.2
        newStateFile :=
          if decide ¬(out.2.2.1 = (load_state sf).sleep) ||
             decide ¬(out.2.2.2 = (load_state sf).activity)
          then .json (serializeState ⟨out.2.2.1, out.2.2.2⟩) else sf } := by
  unfold run
  rw [hl, hc]
  simp only [Bool.false_eq_true, if_false]
  rw [hRD]

/-! ## Remaining specification-shape definitions used by the claim theorems -/

/-- A state-file field the loader can interpret: present, a JSON string, and
parseable in the persisted ISO format. -/
def interpretableField (k : String) (kvs : List (String × Json)) : Prop :=
  ∃ s d, lookupJ k kvs = some (Json.str s) ∧ _iso_to_dt s = some d

/-- Truncation of a whole state to whole seconds. -/
def truncState (m : StateMap) : StateMap :=
  ⟨m.sleep.map truncDT, m.activity.map truncDT⟩

/-- Both watermarks carry whole-second timestamps (or are absent). -/
def wholeSeconds (m : StateMap) : Prop :=
  microZeroOpt m.sleep ∧ microZeroOpt m.activity

def stripBucketFlag (o : RunOutcome) : RunOutcome :=
  { o with bucketCreated := false }

def exceptIsOk {ε α : Type} : Except ε α → Bool
  | .ok _ => true
  | .error _ => false

theorem parseStateField_trunc (d : DateTime) :
    parseStateField (some (Json.str (_dt_to_iso d))) = .ok (some (truncDT d)) := by
  unfold parseStateField
  dsimp only
  rw [iso_roundtrip]

theorem parseStateField_uninterpretable {k : String} {kvs : List (String × Json)}
    (h : ¬ interpretableField k kvs) :
    parseStateField (lookupJ k kvs) = .ok none ∨ parseStateField (lookupJ k kvs) = .error () := by
  unfold parseStateField
  cases hv : lookupJ k kvs with
  | none => exact Or.inl rfl
  | some j =>
    cases j with
    | str s =>
      dsimp only
      cases hp : _iso_to_dt s with
      | none => exact Or.inr rfl
      | some d => exact absurd ⟨s, d, hv, hp⟩ h
    | null => exact Or.inl rfl
    | num n => exact Or.inl rfl
    | bool b => exact Or.inl rfl
    | obj kvs2 => exact Or.inl rfl

/-- C5.  Corrupt-state recovery: load_state never raises (it is a total
function by construction, mirroring the try/except); a missing file,
unparseable bytes, or a parseable non-object document all yield the
all-absent state; and any field that is not an interpretable timestamp
string (missing key, wrong-typed value, or malformed string) comes back
absent, so a corrupt record behaves as a first-ever sync. -/
theorem corrupt_state_recovery :
    load_state .missing = ⟨none, none⟩ ∧
    load_state .unparseable = ⟨none, none⟩ ∧
    (∀ j : Json, (∀ kvs, j ≠ Json.obj kvs) → load_state (.json j) = ⟨none, none⟩) ∧
    (∀ kvs, ¬ interpretableField "sleep" kvs →
      (load_state (.json (Json.obj kvs))).sleep = none) ∧
    (∀ kvs, ¬ interpretableField "activity" kvs →
      (load_state (.json (Json.obj kvs))).activity = none) := by
  refine ⟨rfl, rfl, ?_, ?_, ?_⟩
  · intro j hj
    cases j with
    | obj kvs => exact absurd rfl (hj kvs)
    | null => rfl
    | str s => rfl
    | num n => rfl
    | bool b => rfl
  · intro kvs h
    unfold load_state
    dsimp only
    rcases parseStateField_uninterpretable h with hok | herr
    · rw [hok]
      cases h2 : parseStateField (lookupJ "activity" kvs) with
      | ok a => rfl
      | error e => rfl
    · rw [herr]
  · intro kvs h
    unfold load_state
    dsimp only
    rcases parseStateField_uninterpretable h with hok | herr
    · rw [hok]
      cases h2 : parseStateField (lookupJ "sleep" kvs) with
      | ok a => rfl
      | error e => rfl
    · rw [herr]
      cases h2 : parseStateField (lookupJ "sleep" kvs) with
      | ok a => rfl
      | error e => rfl

theorem corrupt_state_recovery_witness :
    (load_state (.json (Json.obj [("sleep", Json.num 5)]))).sleep = none :=
  corrupt_state_recovery.2.2.2.1 [("sleep", Json.num 5)] (by
    rintro ⟨s, d, hl, -⟩
    rw [show lookupJ "sleep" [("sleep", Json.num 5)] = some (Json.num 5) from rfl] at hl
    exact Json.noConfusion (Option.some.inj hl))

/-- C10.  State round-trip: loading immediately after serializing returns the
saved state with every timestamp truncated to whole seconds; consequently the
round-trip is the identity exactly when the saved watermarks had no sub-second
component (absent watermarks round-trip unconditionally). -/
theorem state_roundtrip :
    ∀ m : StateMap,
      load_state (.json (serializeState m)) = truncState m ∧
      (truncState m = m ↔ wholeSeconds m) := by
  intro m
  obtain ⟨ms, ma⟩ := m
  constructor
  · cases ms with
    | none =>
      cases ma with
      | none => rfl
      | some e => exact load_state_obj rfl (parseStateField_trunc e)
    | some d =>
      cases ma with
      | none => exact load_state_obj (parseStateField_trunc d) rfl
      | some e => exact load_state_obj (parseStateField_trunc d) (parseStateField_trunc e)
  · constructor
    · intro h
      constructor
      · intro d hd
        cases hd
        have hh := congrArg (fun st => st.sleep) h
        simp only [truncState, Option.map_some'] at hh
        exact (congrArg DateTime.micro (Option.some.inj hh)).symm
      · intro d hd
        cases hd
        have hh := congrArg (fun st => st.activity) h
        simp only [truncState, Option.map_some'] at hh
        exact (congrArg DateTime.micro (Option.some.inj hh)).symm
    · rintro ⟨h1, h2⟩
      unfold truncState
      congr 1
      · cases ms with
        | none => rfl
        | some d => simp [truncDT_eq (h1 d rfl)]
      · cases ma with
        | none => rfl
        | some d => simp [truncDT_eq (h2 d rfl)]

theorem path_ne_tmpName (p : String) : p ≠ tmpName p := by
  intro h
  have hl := congrArg String.length h
  rw [tmpName, String.length_append] at hl
  have h4 : (".tmp" : String).length = 4 := rfl
  omega

/-- C9.  Atomic watermark commit: at every filesystem state reachable while
save_state runs — before any write, during a torn or complete write of the
temporary file, and after the atomic rename — the state path holds either
its complete old content or the complete new serialized state, never a torn
document. -/
theorem save_atomic_commit :
    ∀ (fs : FS) (path : String) (m : StateMap) (fsMid : FS),
      SaveWrite fs path m fsMid →
      fsMid path = fs path ∨ fsMid path = some (dumpsState m) := by
  intro fs path m fsMid h
  cases h with
  | before => exact Or.inl rfl
  | during s =>
    left
    unfold fsUpdate
    rw [if_neg (path_ne_tmpName path)]
  | written =>
    left
    unfold fsUpdate
    rw [if_neg (path_ne_tmpName path)]
  | replaced =>
    right
    unfold fsUpdate
    rw [if_neg (path_ne_tmpName path), if_pos rfl]

theorem save_atomic_commit_witness :
    (fsUpdate (fun _ => none) (tmpName ".aw-garmin") (some "torn")) ".aw-garmin" =
      (fun (_ : String) => (none : Option String)) ".aw-garmin" ∨
    (fsUpdate (fun _ => none) (tmpName ".aw-garmin") (some "torn")) ".aw-garmin" =
      some (dumpsState ⟨none, none⟩) :=
  save_atomic_commit (fun _ => none) ".aw-garmin" ⟨none, none⟩ _ (SaveWrite.during "torn")

/-- The epoch default datetime 1970-01-01T00:00:00. -/
def epoch1970 : DateTime :=
  ⟨1970, 1, 1, 0, 0, 0, 0, by omega, by omega, by omega, by omega, by omega,
   by decide, by omega, by omega, by omega, by omega⟩

/-- C8 counterexample: the claim says normalization never fails when optional
fields are null, but a present-but-null start field is stringified to "None",
which fails timestamp parsing, so the record raises a parse error. -/
theorem null_start_raises :
    normalizeActivity ⟨JField.null, JField.absent, JField.absent⟩ =
      .error SyncErr.parseError := rfl

/-- Failure characterization of activity normalization: an error arises
exactly from an unparseable (stringified) start field or an out-of-range
computed end time; the duration and activityType fields never contribute. -/
theorem normalizeActivity_error_iff (a : RawActivity) :
    (∃ e, normalizeActivity a = .error e) ↔
      (parseSleepTs (actStartStr a.startTimestampGMT) = none ∨
       ∃ st, parseSleepTs (actStartStr a.startTimestampGMT) = some st ∧
         addSeconds st (actDurationMinutes a.duration * 60) = none) := by
  unfold normalizeActivity
  cases hs : parseSleepTs (actStartStr a.startTimestampGMT) with
  | none =>
    dsimp only
    exact ⟨fun _ => Or.inl rfl, fun _ => ⟨SyncErr.parseError, rfl⟩⟩
  | some st =>
    dsimp only
    cases ha : addSeconds st (actDurationMinutes a.duration * 60) with
    | none => exact ⟨fun _ => Or.inr ⟨st, rfl, ha⟩, fun _ => ⟨SyncErr.overflowError, rfl⟩⟩
    | some endT =>
      constructor
      · rintro ⟨e, he⟩
        exact Except.noConfusion he
      · rintro (h | ⟨st2, hst2, ha2⟩)
        · exact Option.noConfusion h
        · cases Option.some.inj hst2
          rw [ha] at ha2
          exact Option.noConfusion ha2

/-- C8 (amended).  Activity-normalization totality: normalization fails
exactly when the stringified start field is not a well-formed timestamp
(including the null case, rendered "None") or the computed end time leaves
the representable datetime range; in particular missing or null duration and
activity-type fields never cause a failure, every record with a parseable
start and in-range end normalizes successfully, and with all optional fields
absent the event gets the epoch start and zero duration. -/
theorem activity_normalization_totality :
    (∀ a : RawActivity,
      (∃ e, normalizeActivity a = .error e) ↔
        (parseSleepTs (actStartStr a.startTimestampGMT) = none ∨
         ∃ st, parseSleepTs (actStartStr a.startTimestampGMT) = some st ∧
           addSeconds st (actDurationMinutes a.duration * 60) = none)) ∧
    (∀ a : RawActivity,
      parseSleepTs (actStartStr a.startTimestampGMT) ≠ none →
      (∀ st, parseSleepTs (actStartStr a.startTimestampGMT) = some st →
        addSeconds st (actDurationMinutes a.duration * 60) ≠ none) →
      ∃ p, normalizeActivity a = .ok p) ∧
    (∃ p, normalizeActivity ⟨JField.absent, JField.absent, JField.absent⟩ = .ok p ∧
      p.1.timestamp = epoch1970 ∧ p.1.duration = 0) := by
  refine ⟨normalizeActivity_error_iff, ?_, ⟨_, rfl, rfl, rfl⟩⟩
  intro a h1 h2
  cases h : normalizeActivity a with
  | ok p => exact ⟨p, rfl⟩
  | error e =>
    rcases (normalizeActivity_error_iff a).mp ⟨e, h⟩ with hp | ⟨st, hst, hadd⟩
    · exact absurd hp h1
    · exact absurd hadd (h2 st hst)

theorem activity_normalization_totality_witness :
    ∃ p, normalizeActivity ⟨JField.absent, JField.val 45, JField.val "running"⟩ = .ok p :=
  activity_normalization_totality.2.1 ⟨JField.absent, JField.val 45, JField.val "running"⟩
    (by rw [show parseSleepTs (actStartStr JField.absent) = some epoch1970 from rfl]; exact fun h => Option.noConfusion h)
    (by
      intro st hst
      rw [show parseSleepTs (actStartStr JField.absent) = some epoch1970 from rfl] at hst
      cases Option.some.inj hst
      rw [show addSeconds epoch1970 (actDurationMinutes (JField.val 45) * 60) =
        some ((parseSleepTs "1970-01-01T00:45:00.0").get (by rfl)) from rfl]
      exact fun h => Option.noConfusion h)

/-- C4 counterexample: the claim says days_back = 0 fetches exactly one date
(today), but the source clamps with max(1, days_back), so days_back = 0
fetches two dates. -/
theorem sliding_window_days_back_zero :
    (buildDates none 0 600).length = 2 ∧ (buildDates none 0 600).length ≠ 0 + 1 := by
  constructor
  · rfl
  · decide

/-- C4 (amended).  Sliding-window date policy: with no explicit date the
orchestrator fetches exactly max(1, days_back) + 1 consecutive calendar days
ending today inclusive, oldest first (entry i is the rendering of ordinal
today - n + i, so successive entries are successive days and the last is
today); with an explicit date it fetches exactly that single date.  The
max(1, ·) clamp means days_back = 0 behaves like days_back = 1. -/
theorem sliding_window_policy :
    ∀ (db : Int) (today : Nat), 0 ≤ db → (max 1 db).toNat ≤ today →
      ((buildDates none db today).length = (max 1 db).toNat + 1 ∧
       (∀ i, i ≤ (max 1 db).toNat →
         (buildDates none db today)[i]? =
           some (fmtDate (fromOrdinal (today - (max 1 db).toNat + i)))) ∧
       (∀ d, buildDates (some d) db today = [d])) := by
  intro db today h0 ht
  refine ⟨?_, ?_, fun d => rfl⟩
  · simp [buildDates]
  · intro i hi
    unfold buildDates
    rw [List.getElem?_map]
    rw [List.getElem?_reverse (by simpa using by omega)]
    simp only [List.length_range]
    rw [List.getElem?_range (by omega)]
    simp only [Option.map_some']
    have harg : today - ((max 1 db).toNat + 1 - 1 - i) = today - (max 1 db).toNat + i := by
      omega
    rw [harg]

theorem sliding_window_policy_witness :
    (buildDates none 0 600).length = (max 1 (0 : Int)).toNat + 1 ∧
    (∀ i, i ≤ (max 1 (0 : Int)).toNat →
      (buildDates none 0 600)[i]? =
        some (fmtDate (fromOrdinal (600 - (max 1 (0 : Int)).toNat + i)))) ∧
    (∀ d, buildDates (some d) 0 600 = [d]) :=
  sliding_window_policy 0 600 (by decide) (by decide)

/-- The per-date loop reads only the upstream data feeds of the world. -/
theorem runDates_world_eq {w u : World} (hs : w.sleepRaw = u.sleepRaw)
    (ha : w.activityRaw = u.activityRaw) (ls la : Option DateTime) :
    ∀ (ds : List String) (acc : Nat × Nat × Option DateTime × Option DateTime),
      runDates w ls la ds acc = runDates u ls la ds acc := by
  intro ds
  induction ds with
  | nil => intro acc; rfl
  | cons d ds ih =>
    intro acc
    unfold runDates
    rw [hs, ha]
    cases sync_sleep_data (u.sleepRaw d) ls with
    | error e => rfl
    | ok sres =>
      cases sync_workout_data (u.activityRaw d) la with
      | error e => rfl
      | ok ares => exact ih _

/-- One sleep segment 10:00-11:00 on 0002-01-03, no activities. -/
def cexWorld : World where
  loginFails := false
  connectFails := false
  bucketResult := .error .otherFailure
  sleepRaw := fun _ => [⟨"0002-01-03T10:00:00.0", "0002-01-03T11:00:00.0", 1⟩]
  activityRaw := fun _ => []

/-- C7 counterexample: the claim says a bucket-setup failure other than
already-exists is fatal and aborts the run before any insert; but with the
bucket creation failing on an unrelated error the run still completes and
inserts one event. -/
theorem bucket_failure_not_fatal :
    (run cexWorld (some "0002-01-03") 2 600 .missing).toOption.map
      (fun o => o.totalInserted) = some 1 ∧
    exceptIsOk (run cexWorld (some "0002-01-03") 2 600 .missing) = true := ⟨rfl, rfl⟩

/-- C7 (amended).  Bucket-setup error policy: the try/except around
create_bucket swallows every exception, so the run behaves identically (up
to the created-vs-existing log flag) whatever the bucket outcome is — the
already-exists rejection is indeed treated as success, but so is every other
bucket-creation failure; bucket setup never aborts the run. -/
theorem bucket_failures_swallowed :
    ∀ (w : World) (r : Except BucketErr Unit) (date : Option String) (db : Int)
      (today : Nat) (sf : StateFileContent),
      (run { w with bucketResult := r } date db today sf).map stripBucketFlag =
      (run { w with bucketResult := Except.error BucketErr.bucketExists } date db today sf).map
        stripBucketFlag := by
  intro w r date db today sf
  unfold run
  dsimp only
  by_cases hl : w.loginFails = true
  · simp only [hl, if_true]
  · simp only [if_neg hl]
    by_cases hc : w.connectFails = true
    · simp only [hc, if_true]
    · simp only [if_neg hc]
      rw [runDates_world_eq (w := { w with bucketResult := r })
        (u := { w with bucketResult := Except.error BucketErr.bucketExists }) rfl rfl]
      cases runDates { w with bucketResult := Except.error BucketErr.bucketExists }
          (load_state sf).sleep (load_state sf).activity (buildDates date db today)
          (0, 0, (load_state sf).sleep, (load_state sf).activity) with
      | error e => rfl
      | ok out => rfl

/-! ## Witness fixtures: a concrete world with one sleep event on 0002-01-03 -/

def wSleepLevel : RawSleepLevel :=
  ⟨"0002-01-03T10:00:00.0", "0002-01-03T11:00:00.0", 1⟩

/-- The end time of the fixture event, 0002-01-03T11:00:00. -/
def wDT11 : DateTime := (parseSleepTs "0002-01-03T11:00:00.0").get (by rfl)

def witWorld : World where
  loginFails := false
  connectFails := false
  bucketResult := .ok ()
  sleepRaw := fun _ => [wSleepLevel]
  activityRaw := fun _ => []

def witOutcome : RunOutcome where
  totalInserted := 1
  sleepInserted := 1
  activityInserted := 0
  bucketCreated := true
  saved := true
  finalSleep := some wDT11
  finalActivity := none
  newStateFile := .json (serializeState ⟨some wDT11, none⟩)

/-- C1.  Dedup filter semantics, for both streams: on a successful sync the
inserted events are exactly the normalized events surviving the watermark
filter (in order, with the inserted count matching), and for every
normalized event the filter keeps it if and only if the watermark is unset
or the event's computed end time strictly exceeds the watermark. -/
theorem dedup_filter_semantics :
    (∀ (raws : List RawSleepLevel) (w : Option DateTime) (evs : List Event) (c : Nat)
        (mx : Option DateTime),
      sync_sleep_data raws w = .ok (evs, c, mx) →
      ∃ nl, normAll normalizeSleepLevel raws = .ok nl ∧
        evs = (keptOf w nl).map Prod.fst ∧ c = (keptOf w nl).length ∧
        ∀ p ∈ nl, (keepB w p.2 = true ↔ (w = none ∨ ∃ v, w = some v ∧ v < p.2))) ∧
    (∀ (acts : List RawActivity) (w : Option DateTime) (evs : List Event) (c : Nat)
        (mx : Option DateTime),
      sync_workout_data acts w = .ok (evs, c, mx) →
      ∃ nl, normAll normalizeActivity acts = .ok nl ∧
        evs = (keptOf w nl).map Prod.fst ∧ c = (keptOf w nl).length ∧
        ∀ p ∈ nl, (keepB w p.2 = true ↔ (w = none ∨ ∃ v, w = some v ∧ v < p.2))) := by
  constructor
  · intro raws w evs c mx h
    obtain ⟨nl, hna, h1, h2, -⟩ := syncStream_components h
    exact ⟨nl, hna, h1, h2, fun p _ => keepB_true_iff⟩
  · intro acts w evs c mx h
    obtain ⟨nl, hna, h1, h2, -⟩ := syncStream_components h
    exact ⟨nl, hna, h1, h2, fun p _ => keepB_true_iff⟩

theorem dedup_filter_semantics_witness :
    ∃ nl, normAll normalizeSleepLevel [wSleepLevel] = .ok nl ∧
      ([] : List Event) = (keptOf (some wDT11) nl).map Prod.fst ∧
      (0 : Nat) = (keptOf (some wDT11) nl).length ∧
      ∀ p ∈ nl, (keepB (some wDT11) p.2 = true ↔
        ((some wDT11 : Option DateTime) = none ∨
         ∃ v, (some wDT11 : Option DateTime) = some v ∧ v < p.2)) :=
  dedup_filter_semantics.1 [wSleepLevel] (some wDT11) [] 0 none (by rfl)

/-- C3.  Monotonic watermark: on any successful run, each stream's final
watermark (the value committed when save runs) is at least the pre-run
watermark loaded from the state file, and a stream that inserted no events
keeps its pre-run watermark exactly. -/
theorem watermark_monotone :
    ∀ (w : World) (date : Option String) (db : Int) (today : Nat)
      (sf : StateFileContent) (o : RunOutcome),
      run w date db today sf = .ok o →
      optLe (load_state sf).sleep o.finalSleep ∧
      optLe (load_state sf).activity o.finalActivity ∧
      (o.sleepInserted = 0 → o.finalSleep = (load_state sf).sleep) ∧
      (o.activityInserted = 0 → o.finalActivity = (load_state sf).activity) := by
  intro w date db today sf o h
  obtain ⟨-, -, out, hRD, hsi, hai, -, hfs, hfa, -, -⟩ := run_ok_inv h
  obtain ⟨m1, m2, -, -⟩ := runDates_mono hRD
  refine ⟨?_, ?_, ?_, ?_⟩
  · rw [hfs]; exact m1
  · rw [hfa]; exact m2
  · intro hz
    rw [hfs]
    exact runDates_stable_sleep hRD (by dsimp only; omega)
  · intro hz
    rw [hfa]
    exact runDates_stable_act hRD (by dsimp only; omega)

theorem watermark_monotone_witness :
    optLe (load_state StateFileContent.missing).sleep witOutcome.finalSleep ∧
    optLe (load_state StateFileContent.missing).activity witOutcome.finalActivity ∧
    (witOutcome.sleepInserted = 0 →
      witOutcome.finalSleep = (load_state StateFileContent.missing).sleep) ∧
    (witOutcome.activityInserted = 0 →
      witOutcome.finalActivity = (load_state StateFileContent.missing).activity) :=
  watermark_monotone witWorld (some "0002-01-03") 2 600 .missing witOutcome (by rfl)

/-- C6.  Save-only-on-advance: a successful run saves the state if and only
if at least one stream's running maximum strictly advanced past its pre-run
watermark (going from absent to present counts as an advance); when nothing
advanced the state file is left untouched. -/
theorem save_only_on_advance :
    ∀ (w : World) (date : Option String) (db : Int) (today : Nat)
      (sf : StateFileContent) (o : RunOutcome),
      run w date db today sf = .ok o →
      ((o.saved = true ↔
        (optLt (load_state sf).sleep o.finalSleep ∨
         optLt (load_state sf).activity o.finalActivity)) ∧
       (o.saved = false → o.newStateFile = sf)) := by
  intro w date db today sf o h
  obtain ⟨-, -, out, hRD, -, -, -, hfs, hfa, hsv, hnf⟩ := run_ok_inv h
  obtain ⟨m1, m2, -, -⟩ := runDates_mono hRD
  constructor
  · rw [hsv, hfs, hfa]
    rw [Bool.or_eq_true, decide_eq_true_iff, decide_eq_true_iff]
    constructor
    · rintro (hne | hne)
      · exact Or.inl ((optLe_ne_iff_lt m1).mp (fun he => hne he.symm))
      · exact Or.inr ((optLe_ne_iff_lt m2).mp (fun he => hne he.symm))
    · rintro (hlt | hlt)
      · exact Or.inl (fun he => ((optLe_ne_iff_lt m1).mpr hlt) he.symm)
      · exact Or.inr (fun he => ((optLe_ne_iff_lt m2).mpr hlt) he.symm)
  · intro hsf
    rw [hsv] at hsf
    rw [hnf, if_neg (by rw [hsf]; exact Bool.false_ne_true)]

theorem save_only_on_advance_witness :
    (witOutcome.saved = true ↔
      (optLt (load_state StateFileContent.missing).sleep witOutcome.finalSleep ∨
       optLt (load_state StateFileContent.missing).activity witOutcome.finalActivity)) ∧
    (witOutcome.saved = false → witOutcome.newStateFile = StateFileContent.missing) :=
  save_only_on_advance witWorld (some "0002-01-03") 2 600 .missing witOutcome (by rfl)

/-- C2.  Idempotence of a full run: with upstream data unchanged, a second
run for the same parameters starting from the state file the first run left
behind succeeds and inserts zero events — the committed watermark absorbs
everything the first run inserted. -/
theorem second_run_inserts_nothing :
    ∀ (w : World) (date : Option String) (db : Int) (today : Nat)
      (sf : StateFileContent) (o1 : RunOutcome),
      run w date db today sf = .ok o1 →
      ∃ o2, run w date db today o1.newStateFile = .ok o2 ∧ o2.totalInserted = 0 := by
  intro w date db today sf o1 h
  obtain ⟨hl, hc, out, hRD, -, -, -, -, -, hsv, hnf⟩ := run_ok_inv h
  obtain ⟨mono1, mono2, -, -⟩ := runDates_mono hRD
  -- whatever the save decision was, the state file the first run leaves
  -- loads back to exactly the final running maxima
  have hload : load_state o1.newStateFile = ⟨out.2.2.1, out.2.2.2⟩ := by
    rw [hnf]
    by_cases hD : (decide ¬(out.2.2.1 = (load_state sf).sleep) ||
                   decide ¬(out.2.2.2 = (load_state sf).activity)) = true
    · rw [if_pos hD]
      have hmm := runDates_micro (load_state_micro sf).1 (load_state_micro sf).2 hRD
      exact load_serialize hmm.1 hmm.2
    · rw [if_neg hD]
      have hb : (decide ¬(out.2.2.1 = (load_state sf).sleep) ||
                 decide ¬(out.2.2.2 = (load_state sf).activity)) = false :=
        Bool.eq_false_iff.mpr hD
      obtain ⟨hb1, hb2⟩ := Bool.or_eq_false_iff.mp hb
      have h1 : out.2.2.1 = (load_state sf).sleep := by
        have := of_decide_eq_false hb1
        exact not_not.mp this
      have h2 : out.2.2.2 = (load_state sf).activity := by
        have := of_decide_eq_false hb2
        exact not_not.mp this
      rw [h1, h2]
  -- every date's stream sync against the committed watermarks inserts nothing
  have hall : ∀ d ∈ buildDates date db today,
      sync_sleep_data (w.sleepRaw d) out.2.2.1 = .ok ([], 0, none) ∧
      sync_workout_data (w.activityRaw d) out.2.2.2 = .ok ([], 0, none) := by
    intro d hd
    obtain ⟨⟨rs, hrs, hrsle⟩, ⟨ra, hra, hrale⟩⟩ := runDates_dates hRD d hd
    exact ⟨syncStream_absorbed hrs mono1 hrsle, syncStream_absorbed hra mono2 hrale⟩
  have hRD2 : runDates w out.2.2.1 out.2.2.2 (buildDates date db today)
      (0, 0, out.2.2.1, out.2.2.2) = .ok (0, 0, out.2.2.1, out.2.2.2) :=
    runDates_zero _ _ hall
  have hRD2' : runDates w (load_state o1.newStateFile).sleep (load_state o1.newStateFile).activity
      (buildDates date db today)
      (0, 0, (load_state o1.newStateFile).sleep, (load_state o1.newStateFile).activity) =
      .ok (0, 0, out.2.2.1, out.2.2.2) := by
    rw [hload]
    exact hRD2
  exact ⟨_, run_ok_intro hl hc hRD2', rfl⟩

theorem second_run_inserts_nothing_witness :
    ∃ o2, run witWorld (some "0002-01-03") 2 600 witOutcome.newStateFile = .ok o2 ∧
      o2.totalInserted = 0 :=
  second_run_inserts_nothing witWorld (some "0002-01-03") 2 600 .missing witOutcome (by rfl)
